import Mathlib

/-!
Shallow embedding of the fuzzy branch-checkout engine of the `gch` tool
(Go sources: the scorer / ranker in the matching module, the decision
policy in `git/checkout.go`, and the interactive selector state machine
in the TUI module).

Strings are modelled as lists of characters (`Str`).  The Go code works
on UTF-8 bytes and uses Unicode-aware `strings.ToLower`; the embedding
works at rune granularity with ASCII case mapping, which coincides with
the Go behaviour on ASCII input.  Byte lengths are computed faithfully
via UTF-8 sizes.
-/

/-- Strings as character lists. -/
abbrev Str := List Char

/-- Embeds `strings.ToLower` (ASCII case mapping). -/
def strLower (s : Str) : Str := s.map Char.toLower

/-- Byte length of a string (`len(s)` in Go counts UTF-8 bytes). -/
def byteLen (s : Str) : Nat := (s.map Char.utf8Size).sum

/-- Does `sub` occur at the very start of `s`?  Helper for the
`strings.Contains` / `strings.HasPrefix` embeddings. -/
def leadMatches : Str → Str → Bool
  | _, [] => true
  | [], _ :: _ => false
  | c :: s, d :: sub => c == d && leadMatches s sub

/-- Embeds `strings.Contains s sub`: `sub` occurs contiguously in `s`. -/
def strContains (s sub : Str) : Bool :=
  match s with
  | [] => leadMatches [] sub
  | c :: t => leadMatches (c :: t) sub || strContains t sub

/-- Embeds `strings.HasPrefix s p`. -/
def strStartsWith (s p : Str) : Bool := leadMatches s p

/-- Embeds `strings.HasSuffix s p`. -/
def strEndsWith (s p : Str) : Bool := leadMatches s.reverse p.reverse

/-- Accumulating digit parser: the digits loop inside `strconv.Atoi`
(machine-int overflow is not modelled; it is unreachable for realistic
branch patterns). -/
def parseDigitsAux (s : Str) (acc : Nat) : Option Nat :=
  match s with
  | [] => some acc
  | c :: rest =>
      if c.isDigit then parseDigitsAux rest (acc * 10 + (c.toNat - 48)) else none

/-- Parses a non-empty all-digit string. -/
def parseDigits (s : Str) : Option Nat :=
  match s with
  | [] => none
  | _ :: _ => parseDigitsAux s 0

/-- Embeds `strconv.Atoi`: optional sign followed by at least one digit. -/
def atoi (s : Str) : Option Int :=
  match s with
  | '+' :: rest => (parseDigits rest).map (fun n => (n : Int))
  | '-' :: rest => (parseDigits rest).map (fun n => -(n : Int))
  | _ => (parseDigits s).map (fun n => (n : Int))

/-- Embeds `strconv.Itoa` on the parsed value. -/
def intToStr (n : Int) : Str :=
  if n < 0 then '-' :: Nat.toDigits 10 (-n).toNat else Nat.toDigits 10 n.toNat

/-- Embeds `containsSubsequence` from the matching module: the greedy
loop that checks whether all characters of `sub` occur in order in `s`. -/
def containsSubsequence : Str → Str → Bool
  | _, [] => true
  | [], _ :: _ => false
  | c :: s, d :: sub =>
      if c == d then containsSubsequence s sub else containsSubsequence s (d :: sub)

/-- The fixed common-branch-name bonus table (`commonBranches` map in
the scorer).  Go iterates a map; since the keys are pairwise distinct
and the guard requires the branch to equal the key, iteration order is
irrelevant and a list is a faithful model. -/
def commonBranches : List (Str × Int) :=
  [("master".toList, 50), ("main".toList, 50), ("develop".toList, 40),
   ("dev".toList, 40), ("production".toList, 40), ("prod".toList, 40),
   ("staging".toList, 30), ("stage".toList, 30), ("test".toList, 20)]

/-- One iteration of the common-branch loop body: add the bonus when the
lower-cased branch equals the common name and the common name contains
the lower-cased pattern. -/
def commonStep (bl pl : Str) (acc : Int) (e : Str × Int) : Int :=
  if bl == e.1 && strContains e.1 pl then acc + e.2 else acc

/-- The total common-branch-name bonus accumulated by the loop. -/
def commonScore (bl pl : Str) : Int :=
  commonBranches.foldl (commonStep bl pl) 0

/-- The additive part of `calcMatchScore` after the exact-match and
numeric-pattern short circuits: suffix, prefix, path-token, subsequence
and substring bonuses, the length penalty, and the common-name bonus. -/
def restScore (branch branchLower patternLower : Str) : Int :=
  (if strEndsWith branchLower patternLower then (1000 : Int) else 0)
  + (if strStartsWith branchLower patternLower then (500 : Int) else 0)
  + (if strContains branchLower (('/' :: patternLower) ++ ['/'])
        || strContains branchLower ('/' :: patternLower)
        || strContains branchLower (patternLower ++ ['/']) then (300 : Int) else 0)
  + (if containsSubsequence branchLower patternLower then (250 : Int) else 0)
  + (if strContains branchLower patternLower then (100 : Int) else 0)
  - ((byteLen branch / 5 : Nat) : Int)
  + commonScore branchLower patternLower

/-- Embeds `calcMatchScore branch pattern`.  Exact (case-insensitive)
match returns 10000 at once.  When the pattern parses as an integer, a
branch containing the literal `#pattern` returns 600 at once, else a
branch containing the decimal digits of the parsed value returns 400 at
once; otherwise the additive rules of `restScore` apply. -/
def calcMatchScore (branch pattern : Str) : Int :=
  let branchLower := strLower branch
  let patternLower := strLower pattern
  if branchLower == patternLower then 10000
  else
    match atoi pattern with
    | some num =>
        if strContains branch ('#' :: pattern) then 600
        else if strContains branch (intToStr num) then 400
        else restScore branch branchLower patternLower
    | none => restScore branch branchLower patternLower

example : calcMatchScore "fix/#123-bug".toList "123".toList = 600 := by decide
example : calcMatchScore "main".toList "MAIN".toList = 10000 := by decide
example : calcMatchScore "abcab".toList "ab".toList = 1849 := by decide
example : calcMatchScore "origin/main".toList "main".toList
    = 1000 + 300 + 250 + 100 - 2 := by decide

/-! ## Ranker and decision policy (`branchMatch`, `sortMatches`,
`SmartCheckout` from `git/checkout.go`) -/

/-- Embeds the `Branch` struct of the TUI module. -/
structure Branch where
  name : Str
  isLocal : Bool
  current : Bool
deriving DecidableEq

/-- Embeds the `branchMatch` struct: a branch matching the pattern. -/
structure branchMatch where
  name : Str
  isLocal : Bool
  score : Int
deriving DecidableEq

/-- The comparator passed to `sort.Slice` in `sortMatches`: `a` strictly
precedes `b` when its score is higher, or on equal scores when `a` is
local and `b` is not. -/
def matchLess (a b : branchMatch) : Bool :=
  if a.score == b.score then a.isLocal && !b.isLocal
  else decide (b.score < a.score)

/-- The non-strict order induced by the comparator: `a` may come before
`b` exactly when `b` does not strictly precede `a`. -/
def matchLe (a b : branchMatch) : Prop := matchLess b a = false

instance : DecidableRel matchLe := fun a b =>
  inferInstanceAs (Decidable (matchLess b a = false))

/-- Embeds `sortMatches`: `sort.Slice` with the comparator above,
modelled as a comparison sort (the order of score-and-locality ties is
unspecified in `sort.Slice` and irrelevant to every claim). -/
def sortMatches (ms : List branchMatch) : List branchMatch :=
  List.insertionSort matchLe ms

/-- Embeds the scoring pass of `SmartCheckout`: score every branch and
keep those with a strictly positive score. -/
def computeMatches (branches : List Branch) (pattern : Str) : List branchMatch :=
  branches.filterMap (fun b =>
    let score := calcMatchScore b.name pattern
    if 0 < score then some ⟨b.name, b.isLocal, score⟩ else none)

/-- Outcome of the decision policy at the end of `SmartCheckout`. -/
inductive Decision where
  /-- Single winner: check out `best` directly (local branches get a
  plain checkout, remote-only ones a tracking-branch checkout). -/
  | auto (best : branchMatch)
  /-- Comparable top scores: open the interactive selector seeded with
  the full ranked candidate list. -/
  | interactive (candidates : List branchMatch)
  /-- Unreachable in `SmartCheckout` (the ranked list is non-empty). -/
  | empty
deriving DecidableEq

/-- Embeds the branch-count test of `SmartCheckout`: auto-checkout when
there is exactly one match or `bestMatch.score > matches[1].score*2`,
otherwise start the interactive selector with all matches. -/
def decidePolicy : List branchMatch → Decision
  | [] => .empty
  | [m] => .auto m
  | m1 :: m2 :: rest =>
      if m2.score * 2 < m1.score then .auto m1
      else .interactive (m1 :: m2 :: rest)

/-- The external git state `SmartCheckout` observes: the branch list
before the fetch, whether the fetch succeeds, and the branch list
reported after the fetch. -/
structure CheckoutEnv where
  branchesBefore : List Branch
  fetchOk : Bool
  branchesAfter : List Branch

/-- Terminal outcome of the match-and-decide portion of `SmartCheckout`. -/
inductive Outcome where
  | noBranches
  | fetchFailed
  | noMatch
  | proceed (d : Decision)
deriving DecidableEq

/-- Embeds the driver of `SmartCheckout` (pattern non-empty, no `-b`):
returns the number of `git fetch` invocations together with the
outcome.  Matches are computed from the pre-fetch branch list; only
when that candidate set is empty does it fetch once, recompute once,
and give up with the no-match failure if still empty. -/
def smartCheckoutCore (env : CheckoutEnv) (pattern : Str) : Nat × Outcome :=
  if env.branchesBefore.length = 0 then (0, .noBranches)
  else
    let ms := computeMatches env.branchesBefore pattern
    if ms.length = 0 then
      if env.fetchOk = false then (1, .fetchFailed)
      else
        let ms2 := computeMatches env.branchesAfter pattern
        if ms2.length = 0 then (1, .noMatch)
        else (1, .proceed (decidePolicy (sortMatches ms2)))
    else (0, .proceed (decidePolicy (sortMatches ms)))

/-! ## Interactive selector state machine (`branchModel`,
`stashPromptModel` and their `Update` functions in the TUI module) -/

/-- Embeds the `stashPromptModel` struct: the stash-or-abort prompt. -/
structure stashPromptModel where
  choices : List Str
  cursor : Int
  selected : Bool
deriving DecidableEq

/-- Embeds `createStashPromptModel`. -/
def createStashPromptModel : stashPromptModel :=
  { choices := ["Stash changes and continue".toList, "Abort checkout".toList],
    cursor := 0, selected := false }

/-- Embeds the `branchModel` struct: the selector's TUI state. -/
structure branchModel where
  branches : List Branch
  filteredIdx : List Nat
  selected : Int
  query : Str
  width : Int
  height : Int
  showRemotes : Bool
  debugMode : Bool
  showStashPrompt : Bool
  stashPrompt : Option stashPromptModel
deriving DecidableEq

/-- Input events: bubbletea key messages, identified by `msg.String()`
exactly as the Go `switch` does. -/
inductive Msg where
  | key (s : Str)
deriving DecidableEq

/-- Result of one synchronous `git checkout` attempt, classified the way
the selector classifies `CombinedOutput`: success, the two
would-be-overwritten error texts, or any other failing output. -/
inductive CheckoutResult where
  | success
  | destructiveOverwrite
  | otherError
deriving DecidableEq

/-- Commands (`tea.Cmd`) returned by the selector, as abstract effect
descriptors. -/
inductive Effect where
  /-- `nil` command: no side effect. -/
  | none
  /-- `tea.Quit`: leave the selector. -/
  | quit
  /-- `tea.Sequence(tea.ExecProcess(git stash push …, callback),
  tea.Quit)` from the stash-retry branch: bubbletea executes the stash;
  on success the callback merely RETURNS the constructed checkout
  command for `b` (`exec.Command("git", "checkout", …)`) as a plain
  `tea.Msg` value, which is delivered to `Update` and never executed by
  any handler — so the checkout of `b` is only constructed, not run. -/
  | stashThenCheckoutMsg (b : Branch)
  /-- `tea.Sequence(tea.ExecProcess(git checkout of `b`, callback),
  tea.Quit)`: re-run the failed checkout so its error is surfaced;
  here the checkout itself is the executed process. -/
  | surfaceError (b : Branch)
deriving DecidableEq

/-- The git commands an effect causes bubbletea to actually execute. -/
inductive GitCmd where
  | stashPush
  | checkout (name : Str)
  | checkoutTrack (name : Str)
deriving DecidableEq

/-- Modelled from the bubbletea API contract (the library is not part
of this repository): `tea.ExecProcess cmd cb` executes `cmd` and then
dispatches `cb`'s returned value to `Update` as a message; a command
value returned *as a message* is data, and is never executed.  Hence
the stash-retry effect executes exactly one stash and zero checkouts,
while the error-surfacing effect executes the checkout itself. -/
def executedCommands : Effect → List GitCmd
  | Effect.none => []
  | Effect.quit => []
  | Effect.stashThenCheckoutMsg _ => [GitCmd.stashPush]
  | Effect.surfaceError b =>
      [if b.isLocal then GitCmd.checkout b.name else GitCmd.checkoutTrack b.name]

/-- The external collaborators the selector calls: the fuzzy filter
library (`fuzzy.Find`, returning indices into the name list in its own
relevance order) and the git checkout attempt. -/
structure SelectorEnv where
  fuzzyFind : Str → List Str → List Nat
  checkoutResult : Branch → CheckoutResult

def keyCtrlC : Str := "ctrl+c".toList
def keyQ : Str := "q".toList
def keyEnter : Str := "enter".toList
def keyUp : Str := "up".toList
def keyK : Str := "k".toList
def keyDown : Str := "down".toList
def keyJ : Str := "j".toList
def keyBackspace : Str := "backspace".toList
def keyEsc : Str := "esc".toList

/-- Embeds `branchModel.filter`: store the query; an empty query shows
every branch, otherwise the fuzzy engine's match indices become the
visible list; a cursor that fell past the end of a non-empty visible
list is reset to 0. -/
def filterModel (env : SelectorEnv) (m : branchModel) (q : Str) : branchModel :=
  let m1 := { m with query := q }
  if q.isEmpty then
    { m1 with filteredIdx := List.range m1.branches.length }
  else
    let names := m1.branches.map Branch.name
    let m2 := { m1 with filteredIdx := env.fuzzyFind q names }
    if 0 < m2.filteredIdx.length ∧ (m2.filteredIdx.length : Int) ≤ m2.selected then
      { m2 with selected := 0 }
    else m2

/-- Embeds `stashPromptModel.Update`. -/
def stashUpdate (m : stashPromptModel) (msg : Msg) : stashPromptModel × Effect :=
  match msg with
  | .key s =>
      if s == keyUp || s == keyK then
        (if 0 < m.cursor then { m with cursor := m.cursor - 1 } else m, .none)
      else if s == keyDown || s == keyJ then
        (if m.cursor < (m.choices.length : Int) - 1 then
          { m with cursor := m.cursor + 1 } else m, .none)
      else if s == keyEnter then ({ m with selected := true }, .quit)
      else if s == keyQ || s == keyEsc then
        ({ m with cursor := 1, selected := true }, .quit)
      else (m, .none)

/-- Embeds `branchModel.Update`.  `none` models an out-of-bounds slice
access (a Go panic); every reachable state avoids it (see the selector
invariant below).  While the stash prompt is shown, messages go to the
prompt; a committed stash choice emits the stash effect (in which the
checkout of the currently selected branch survives only as an inert
message, see `Effect.stashThenCheckoutMsg`), a committed abort quits.
Otherwise keys quit, attempt a checkout, move the cursor, or edit the
live filter query. -/
def branchUpdate (env : SelectorEnv) (m : branchModel) (msg : Msg) :
    Option (branchModel × Effect) :=
  if m.showStashPrompt then
    let sp := m.stashPrompt.getD createStashPromptModel
    let res := stashUpdate sp msg
    let m2 := { m with stashPrompt := some res.1 }
    if res.1.selected then
      if res.1.cursor == 0 then
        match m2.filteredIdx.get? m2.selected.toNat with
        | Option.none => none
        | some bi =>
          match m2.branches.get? bi with
          | Option.none => none
          | some b => some (m2, .stashThenCheckoutMsg b)
      else some (m2, .quit)
    else some (m2, res.2)
  else
    match msg with
    | .key s =>
      if s == keyCtrlC || s == keyQ then some (m, .quit)
      else if s == keyEnter then
        if 0 < m.filteredIdx.length then
          match m.filteredIdx.get? m.selected.toNat with
          | Option.none => none
          | some bi =>
            match m.branches.get? bi with
            | Option.none => none
            | some b =>
              match env.checkoutResult b with
              | .success => some (m, .quit)
              | .destructiveOverwrite =>
                  some ({ m with showStashPrompt := true }, .none)
              | .otherError => some (m, .surfaceError b)
        else some (m, .none)
      else if s == keyUp || s == keyK then
        some (if 0 < m.selected then { m with selected := m.selected - 1 } else m, .none)
      else if s == keyDown || s == keyJ then
        some (if m.selected < (m.filteredIdx.length : Int) - 1 then
          { m with selected := m.selected + 1 } else m, .none)
      else if s == keyBackspace then
        some (if 0 < m.query.length then
          filterModel env m m.query.dropLast else m, .none)
      else if s.length = 1 then
        some (filterModel env m (m.query ++ s), .none)
      else some (m, .none)

/-- Embeds the first-match `Current` marking loop of
`createFilteredBranchModel` (the loop breaks after the first hit). -/
def markFirst (c : Str) : List Branch → List Branch
  | [] => []
  | b :: rest =>
      if b.name == c then { b with current := true } :: rest
      else b :: markFirst c rest

/-- Embeds `createFilteredBranchModel`: convert matches to branches,
mark the current branch when `getCurrentBranch` succeeded (`cur`), and
start with cursor 0 and every branch visible. -/
def createFilteredBranchModel (ms : List branchMatch) (debugMode : Bool)
    (cur : Option Str) : branchModel :=
  let branches0 := ms.map (fun mt => Branch.mk mt.name mt.isLocal false)
  let branches := match cur with
    | Option.none => branches0
    | some c => markFirst c branches0
  { branches := branches,
    filteredIdx := List.range branches.length,
    selected := 0, query := [], width := 80, height := 20,
    showRemotes := true, debugMode := debugMode,
    showStashPrompt := false, stashPrompt := Option.none }

/-! ## Helper lemmas -/

lemma foldl_commonStep_bounds (bl pl : Str) :
    ∀ (L : List (Str × Int)) (acc : Int), (∀ e ∈ L, 0 ≤ e.2) →
      acc ≤ L.foldl (commonStep bl pl) acc ∧
      L.foldl (commonStep bl pl) acc ≤ acc + (L.map Prod.snd).sum := by
  intro L
  induction L with
  | nil => intro acc _; simp
  | cons x rest ih =>
      intro acc hpos
      have hx : 0 ≤ x.2 := hpos x (by simp)
      have hrest : ∀ e ∈ rest, 0 ≤ e.2 := fun e he => hpos e (by simp [he])
      simp only [List.foldl_cons, List.map_cons, List.sum_cons, commonStep]
      by_cases hc : (bl == x.1 && strContains x.1 pl) = true
      · rw [if_pos hc]
        have h := ih (acc + x.2) hrest
        exact ⟨by linarith [h.1], by linarith [h.2]⟩
      · rw [if_neg hc]
        have h := ih acc hrest
        exact ⟨h.1, by linarith [h.2]⟩

lemma commonScore_bounds (bl pl : Str) :
    0 ≤ commonScore bl pl ∧ commonScore bl pl ≤ 340 := by
  unfold commonScore
  have h := foldl_commonStep_bounds bl pl commonBranches 0 (by decide)
  have hsum : ((commonBranches.map Prod.snd).sum : Int) = 340 := by decide
  exact ⟨h.1, by have := h.2; rw [hsum] at this; linarith⟩

lemma restScore_le (branch bl pl : Str) : restScore branch bl pl ≤ 2490 := by
  unfold restScore
  have hc := commonScore_bounds bl pl
  have hp : (0 : Int) ≤ ((byteLen branch / 5 : Nat) : Int) := Int.ofNat_nonneg _
  split_ifs <;> omega

lemma foldl_commonStep_of_none (bl pl : Str) :
    ∀ (L : List (Str × Int)) (acc : Int),
      (∀ e ∈ L, (bl == e.1 && strContains e.1 pl) = false) →
      L.foldl (commonStep bl pl) acc = acc := by
  intro L
  induction L with
  | nil => intro acc _; rfl
  | cons x rest ih =>
      intro acc hall
      simp only [List.foldl_cons, commonStep]
      rw [if_neg (by simp [hall x (by simp)])]
      exact ih acc (fun e he => hall e (by simp [he]))

lemma foldl_commonStep_single (bl pl : Str) :
    ∀ (L : List (Str × Int)) (acc : Int) (e : Str × Int), e ∈ L →
      (bl == e.1 && strContains e.1 pl) = true →
      (∀ e2 ∈ L, (bl == e2.1 && strContains e2.1 pl) = true → e2 = e) →
      L.Nodup →
      L.foldl (commonStep bl pl) acc = acc + e.2 := by
  intro L
  induction L with
  | nil => intro acc e he; cases he
  | cons x rest ih =>
      intro acc e he hce huniq hnd
      by_cases hcx : (bl == x.1 && strContains x.1 pl) = true
      · have hxe : x = e := huniq x (by simp) hcx
        subst hxe
        have hnotin : x ∉ rest := (List.nodup_cons.mp hnd).1
        simp only [List.foldl_cons, commonStep, if_pos hcx]
        apply foldl_commonStep_of_none
        intro e2 he2
        cases hb : (bl == e2.1 && strContains e2.1 pl) with
        | false => rfl
        | true => exact absurd ((huniq e2 (by simp [he2]) hb) ▸ he2) hnotin
      · have hex : e ≠ x := fun h => hcx (h ▸ hce)
        have he' : e ∈ rest := by
          rcases List.mem_cons.mp he with h | h
          · exact absurd h hex
          · exact h
        simp only [List.foldl_cons, commonStep, if_neg hcx]
        exact ih acc e he' hce (fun e2 he2 hc2 => huniq e2 (by simp [he2]) hc2)
          (List.nodup_cons.mp hnd).2

lemma commonKeys_distinct : (commonBranches.map Prod.fst).Nodup := by decide

lemma commonBranches_nodup : commonBranches.Nodup :=
  commonKeys_distinct.of_map _

/-- The common-name bonus fires with exactly its table value when the
lower-cased branch equals a table key containing the pattern. -/
lemma commonScore_hit (pl : Str) (e : Str × Int) (he : e ∈ commonBranches)
    (hc : strContains e.1 pl = true) : commonScore e.1 pl = e.2 := by
  unfold commonScore
  have h := foldl_commonStep_single e.1 pl commonBranches 0 e he
    (by simp [hc]) ?_ commonBranches_nodup
  · simpa using h
  · intro e2 he2 hc2
    have hkey : e.1 = e2.1 := by
      have := (Bool.and_eq_true _ _).mp hc2
      exact eq_of_beq this.1
    exact List.inj_on_of_nodup_map commonKeys_distinct he2 he hkey.symm

/-- The common-name bonus is zero when no table entry matches. -/
lemma commonScore_zero (bl pl : Str)
    (hno : ¬ ∃ e ∈ commonBranches, bl = e.1 ∧ strContains e.1 pl = true) :
    commonScore bl pl = 0 := by
  unfold commonScore
  apply foldl_commonStep_of_none
  intro e he
  by_cases h1 : bl = e.1
  · by_cases h2 : strContains e.1 pl = true
    · exact absurd ⟨e, he, h1, h2⟩ hno
    · simp [Bool.not_eq_true] at h2
      simp [h2]
  · simp [beq_eq_false_iff_ne.mpr h1]

/-! ## Claim theorems -/

/-- C1, counterexample: for pattern "123" and branch "fix/#123-bug" the
scorer returns exactly 600 — the ticket check returns immediately, so
the 400 bare-number bonus (and every other bonus) is NOT included,
contrary to the claim that both bonuses contribute additively (which
would put the score at 600 + 400 + 250 + 100 - 2 = 1348, in any case at
least 1000). -/
theorem C1_counterexample :
    calcMatchScore "fix/#123-bug".toList "123".toList = 600 ∧
    ¬ (1000 ≤ calcMatchScore "fix/#123-bug".toList "123".toList) := by
  constructor
  · decide
  · decide

/-- C1, amended: for a non-exact match whose pattern parses as an
integer, the two numeric checks short-circuit instead of adding: a
branch containing the literal `#pattern` scores exactly 600 (no other
bonus contributes), and otherwise a branch containing the decimal
digits of the parsed value scores exactly 400. -/
theorem C1_amended :
    (∀ (branch pattern : Str) (n : Int),
      strLower branch ≠ strLower pattern →
      atoi pattern = some n →
      strContains branch ('#' :: pattern) = true →
      calcMatchScore branch pattern = 600) ∧
    (∀ (branch pattern : Str) (n : Int),
      strLower branch ≠ strLower pattern →
      atoi pattern = some n →
      strContains branch ('#' :: pattern) = false →
      strContains branch (intToStr n) = true →
      calcMatchScore branch pattern = 400) := by
  constructor
  · intro branch pattern n hne hnum hc
    have hbe : (strLower branch == strLower pattern) = false :=
      beq_eq_false_iff_ne.mpr hne
    simp [calcMatchScore, hbe, hnum, hc]
  · intro branch pattern n hne hnum hc1 hc2
    have hbe : (strLower branch == strLower pattern) = false :=
      beq_eq_false_iff_ne.mpr hne
    simp [calcMatchScore, hbe, hnum, hc1, hc2]

/-- C1, witness for the amended theorem at the concrete inputs of the
counterexample. -/
theorem C1_witness :
    calcMatchScore "fix/#123-bug".toList "123".toList = 600 ∧
    calcMatchScore "fix/123-bug".toList "123".toList = 400 :=
  ⟨C1_amended.1 _ _ 123 (by decide) (by decide) (by decide),
   C1_amended.2 _ _ 123 (by decide) (by decide) (by decide) (by decide)⟩

lemma calcMatchScore_lt_of_ne (b pattern : Str)
    (hne : strLower b ≠ strLower pattern) : calcMatchScore b pattern < 10000 := by
  have hbe : (strLower b == strLower pattern) = false :=
    beq_eq_false_iff_ne.mpr hne
  simp only [calcMatchScore, hbe, Bool.false_eq_true, if_false]
  cases hnum : atoi pattern with
  | some n =>
      dsimp only
      split_ifs
      · omega
      · omega
      · have := restScore_le b (strLower b) (strLower pattern); omega
  | none =>
      dsimp only
      have := restScore_le b (strLower b) (strLower pattern); omega

/-- C2: a branch that case-insensitively equals the pattern scores
exactly 10000; every other branch scores strictly below 10000; hence
the exact-match branch strictly outranks every non-exact one. -/
theorem C2_exact_dominates : ∀ (branch pattern : Str),
    (strLower branch = strLower pattern → calcMatchScore branch pattern = 10000) ∧
    (strLower branch ≠ strLower pattern → calcMatchScore branch pattern < 10000) ∧
    (strLower branch = strLower pattern → ∀ b2 : Str,
      strLower b2 ≠ strLower pattern →
      calcMatchScore b2 pattern < calcMatchScore branch pattern) := by
  intro branch pattern
  refine ⟨?_, calcMatchScore_lt_of_ne branch pattern, ?_⟩
  · intro h; simp [calcMatchScore, h]
  · intro h b2 h2
    have h1 : calcMatchScore branch pattern = 10000 := by simp [calcMatchScore, h]
    have := calcMatchScore_lt_of_ne b2 pattern h2
    omega

/-- C2, witness: "main" vs pattern "Main" scores 10000 and strictly
outranks "origin/main". -/
theorem C2_witness :
    calcMatchScore "main".toList "Main".toList = 10000 ∧
    calcMatchScore "origin/main".toList "Main".toList < 10000 ∧
    calcMatchScore "origin/main".toList "Main".toList
      < calcMatchScore "main".toList "Main".toList :=
  ⟨(C2_exact_dominates _ _).1 (by decide),
   (C2_exact_dominates _ _).2.1 (by decide),
   (C2_exact_dominates _ _).2.2 (by decide) _ (by decide)⟩

/-- C5: when a non-exact, non-numeric pattern satisfies the suffix,
prefix, subsequence and substring conditions at once, the score is the
sum of all four bonuses 1000 + 500 + 250 + 100 together with the other
additive contributions (path-token bonus, length penalty, common-name
bonus). -/
theorem C5_bonuses_compound : ∀ (branch pattern : Str),
    strLower branch ≠ strLower pattern →
    atoi pattern = none →
    strEndsWith (strLower branch) (strLower pattern) = true →
    strStartsWith (strLower branch) (strLower pattern) = true →
    containsSubsequence (strLower branch) (strLower pattern) = true →
    strContains (strLower branch) (strLower pattern) = true →
    calcMatchScore branch pattern =
      1000 + 500
      + (if strContains (strLower branch) (('/' :: strLower pattern) ++ ['/'])
            || strContains (strLower branch) ('/' :: strLower pattern)
            || strContains (strLower branch) (strLower pattern ++ ['/'])
          then (300 : Int) else 0)
      + 250 + 100
      - ((byteLen branch / 5 : Nat) : Int)
      + commonScore (strLower branch) (strLower pattern) := by
  intro branch pattern hne hnum h1 h2 h3 h4
  have hbe : (strLower branch == strLower pattern) = false :=
    beq_eq_false_iff_ne.mpr hne
  simp [calcMatchScore, restScore, hbe, hnum, h1, h2, h3, h4]

/-- C5, witness: branch "abcab" and pattern "ab" satisfy all four
structural conditions and score 1000 + 500 + 250 + 100 - 1 = 1849. -/
theorem C5_witness : calcMatchScore "abcab".toList "ab".toList = 1849 := by
  rw [C5_bonuses_compound "abcab".toList "ab".toList (by decide) (by decide)
    (by decide) (by decide) (by decide) (by decide)]
  decide

/-- C3: the decision policy auto-checks-out the best candidate exactly
when there is a single candidate or the best score strictly exceeds
twice the second score; otherwise it opens the interactive selector
seeded with the full ranked candidate list. -/
theorem C3_decision_policy :
    (∀ m : branchMatch, decidePolicy [m] = Decision.auto m) ∧
    (∀ (m1 m2 : branchMatch) (rest : List branchMatch),
      decidePolicy (m1 :: m2 :: rest) = Decision.auto m1 ↔ 2 * m2.score < m1.score) ∧
    (∀ (m1 m2 : branchMatch) (rest : List branchMatch),
      ¬ 2 * m2.score < m1.score →
      decidePolicy (m1 :: m2 :: rest) = Decision.interactive (m1 :: m2 :: rest)) := by
  refine ⟨fun m => rfl, ?_, ?_⟩
  · intro m1 m2 rest
    by_cases h : m2.score * 2 < m1.score
    · simp only [decidePolicy, if_pos h]
      exact ⟨fun _ => by omega, fun _ => by trivial⟩
    · simp only [decidePolicy, if_neg h]
      constructor
      · intro hcontra; exact absurd hcontra (by simp)
      · intro h2; exact absurd (by omega : m2.score * 2 < m1.score) h
  · intro m1 m2 rest h
    simp only [decidePolicy, if_neg (by omega : ¬ m2.score * 2 < m1.score)]

/-- C3, witness: scores [1000, 400] auto-check-out, scores [1000, 600]
open the interactive selector with the full candidate list. -/
theorem C3_witness :
    decidePolicy [⟨['a'], true, 1000⟩, ⟨['b'], false, 400⟩]
      = Decision.auto ⟨['a'], true, 1000⟩ ∧
    decidePolicy [⟨['a'], true, 1000⟩, ⟨['b'], false, 600⟩]
      = Decision.interactive [⟨['a'], true, 1000⟩, ⟨['b'], false, 600⟩] :=
  ⟨(C3_decision_policy.2.1 _ _ _).mpr (by decide),
   C3_decision_policy.2.2 _ _ _ (by decide)⟩

/-- C4: with a non-empty branch list whose initial candidate set is
empty, the driver fetches exactly once and recomputes once; a still
empty recomputation terminates with the no-match failure (and in
particular no second fetch happens: the fetch count is exactly 1).
When the initial candidate set is non-empty, no fetch happens at all. -/
theorem C4_single_refresh :
    (∀ (env : CheckoutEnv) (pattern : Str),
      env.branchesBefore ≠ [] →
      computeMatches env.branchesBefore pattern = [] →
      env.fetchOk = true →
      (smartCheckoutCore env pattern).1 = 1 ∧
      (computeMatches env.branchesAfter pattern = [] →
        (smartCheckoutCore env pattern).2 = Outcome.noMatch) ∧
      (computeMatches env.branchesAfter pattern ≠ [] →
        (smartCheckoutCore env pattern).2 = Outcome.proceed
          (decidePolicy (sortMatches (computeMatches env.branchesAfter pattern))))) ∧
    (∀ (env : CheckoutEnv) (pattern : Str),
      env.branchesBefore ≠ [] →
      computeMatches env.branchesBefore pattern ≠ [] →
      (smartCheckoutCore env pattern).1 = 0) := by
  constructor
  · intro env pattern hne hempty hfetch
    have hlen : ¬ env.branchesBefore.length = 0 := by
      simpa [List.length_eq_zero] using hne
    have hfetch2 : ¬ env.fetchOk = false := by simp [hfetch]
    by_cases hafter : computeMatches env.branchesAfter pattern = []
    · have : smartCheckoutCore env pattern = (1, Outcome.noMatch) := by
        simp [smartCheckoutCore, hlen, hempty, hfetch2, hafter]
      refine ⟨by rw [this], fun _ => by rw [this], fun hc => absurd hafter hc⟩
    · have hlen2 : ¬ (computeMatches env.branchesAfter pattern).length = 0 := by
        simpa [List.length_eq_zero] using hafter
      have : smartCheckoutCore env pattern = (1, Outcome.proceed
          (decidePolicy (sortMatches (computeMatches env.branchesAfter pattern)))) := by
        simp [smartCheckoutCore, hlen, hempty, hfetch2, hlen2]
      refine ⟨by rw [this], fun hc => absurd hc hafter, fun _ => by rw [this]⟩
  · intro env pattern hne hsome
    have hlen : ¬ env.branchesBefore.length = 0 := by
      simpa [List.length_eq_zero] using hne
    have hlen2 : ¬ (computeMatches env.branchesBefore pattern).length = 0 := by
      simpa [List.length_eq_zero] using hsome
    simp [smartCheckoutCore, hlen, hlen2]

/-- C4, witness: one branch "x", pattern "zz" matches nothing before or
after the fetch; the driver fetches once and reports no-match. -/
theorem C4_witness :
    (smartCheckoutCore ⟨[⟨['x'], true, false⟩], true, []⟩ ['z', 'z']).1 = 1 ∧
    (smartCheckoutCore ⟨[⟨['x'], true, false⟩], true, []⟩ ['z', 'z']).2
      = Outcome.noMatch :=
  ⟨(C4_single_refresh.1 ⟨[⟨['x'], true, false⟩], true, []⟩ ['z', 'z']
      (by decide) (by decide) (by decide)).1,
   (C4_single_refresh.1 ⟨[⟨['x'], true, false⟩], true, []⟩ ['z', 'z']
      (by decide) (by decide) (by decide)).2.1 (by decide)⟩

/-- C8: every candidate in the ranked set (the sorted output of the
scoring pass, used identically in the initial and the post-refresh
pass) has a strictly positive score. -/
theorem C8_positive_scores : ∀ (bs : List Branch) (p : Str) (m : branchMatch),
    m ∈ sortMatches (computeMatches bs p) → 0 < m.score := by
  intro bs p m hm
  have hm2 : m ∈ computeMatches bs p := by
    unfold sortMatches at hm
    exact (List.perm_insertionSort matchLe (computeMatches bs p)).mem_iff.mp hm
  rcases List.mem_filterMap.mp hm2 with ⟨b, _, hsome⟩
  by_cases h : 0 < calcMatchScore b.name p
  · rw [if_pos h] at hsome
    cases hsome
    simpa using h
  · rw [if_neg h] at hsome
    cases hsome

/-- C8, witness: the exact match "main" survives into the ranked set
with score 10000 > 0. -/
theorem C8_witness : 0 < (⟨"main".toList, true, (10000 : Int)⟩ : branchMatch).score :=
  C8_positive_scores [⟨"main".toList, true, false⟩] "main".toList _ (by decide)

/-- C9: the common-branch-name bonus is added exactly when the
lower-cased branch equals a table entry (master 50, main 50, develop
40, dev 40, production 40, prod 40, staging 30, stage 30, test 20) and
that entry contains the lower-cased pattern; when no entry matches the
bonus is zero, and in particular a branch lowering to "origin/main"
never receives it, for any pattern. -/
theorem C9_common_bonus :
    (∀ (bl pl : Str) (e : Str × Int), e ∈ commonBranches → bl = e.1 →
      strContains e.1 pl = true → commonScore bl pl = e.2) ∧
    (∀ bl pl : Str,
      (¬ ∃ e ∈ commonBranches, bl = e.1 ∧ strContains e.1 pl = true) →
      commonScore bl pl = 0) ∧
    (∀ pl : Str, commonScore "origin/main".toList pl = 0) := by
  refine ⟨?_, commonScore_zero, ?_⟩
  · intro bl pl e he hbl hc
    subst hbl
    exact commonScore_hit pl e he hc
  · intro pl
    apply commonScore_zero
    rintro ⟨e, he, h1, h2⟩
    exact (by decide : ∀ e2 ∈ commonBranches, ¬ "origin/main".toList = e2.1) e he h1

/-- C9, witness: the bonus fires for branch "main" with pattern "ain"
(value 50) and never for branch "origin/main". -/
theorem C9_witness :
    commonScore "main".toList "ain".toList = 50 ∧
    commonScore "origin/main".toList "main".toList = 0 :=
  ⟨C9_common_bonus.1 "main".toList "ain".toList ("main".toList, 50)
      (by decide) (by decide) (by decide),
   C9_common_bonus.2.2 "main".toList⟩

lemma matchLess_false_iff (a b : branchMatch) : matchLess a b = false ↔
    (a.score < b.score ∨
      (a.score = b.score ∧ (a.isLocal = true → b.isLocal = true))) := by
  by_cases h : a.score = b.score
  · simp only [matchLess, beq_iff_eq, if_pos h, h]
    cases ha : a.isLocal <;> cases hb : b.isLocal <;> simp
  · simp only [matchLess, beq_iff_eq, if_neg h, decide_eq_false_iff_not, not_lt]
    constructor
    · intro hle; left; omega
    · rintro (h1 | ⟨h2, _⟩)
      · omega
      · exact absurd h2 h

instance : IsTotal branchMatch matchLe := ⟨by
  intro a b
  unfold matchLe
  rw [matchLess_false_iff, matchLess_false_iff]
  by_cases h : a.score = b.score
  · cases hb : b.isLocal
    · left; right
      exact ⟨h.symm, fun hc => by cases hc⟩
    · cases ha : a.isLocal
      · right; right; exact ⟨h, fun _ => rfl⟩
      · left; right; exact ⟨h.symm, fun _ => rfl⟩
  · rcases (by omega : a.score < b.score ∨ b.score < a.score) with h1 | h1
    · right; left; exact h1
    · left; left; exact h1⟩

instance : IsTrans branchMatch matchLe := ⟨by
  intro a b c hab hbc
  unfold matchLe at *
  rw [matchLess_false_iff] at *
  rcases hab with h1 | ⟨h1, hi1⟩ <;> rcases hbc with h2 | ⟨h2, hi2⟩
  · left; omega
  · left; omega
  · left; omega
  · right; exact ⟨by omega, fun hc => hi1 (hi2 hc)⟩⟩

/-- C6: the ranked list is a permutation of its input, sorted by score
descending, and on equal scores a remote-only candidate never precedes
a local one (locals sort first). -/
theorem C6_sort_order : ∀ ms : List branchMatch,
    List.Pairwise (fun a b => b.score ≤ a.score ∧
      (a.score = b.score → b.isLocal = true → a.isLocal = true)) (sortMatches ms)
    ∧ (sortMatches ms).Perm ms := by
  intro ms
  constructor
  · have hs := List.sorted_insertionSort matchLe ms
    unfold sortMatches
    refine hs.imp ?_
    intro a b hab
    rw [matchLe, matchLess_false_iff] at hab
    constructor
    · rcases hab with h | ⟨h, _⟩ <;> omega
    · intro he hl
      rcases hab with h | ⟨h2, himp⟩
      · exact absurd he (by omega)
      · exact himp hl
  · exact List.perm_insertionSort matchLe ms

/-! ## Selector safety invariant (C10) -/

/-- The selector's cursor/list invariant: the cursor is non-negative,
within the visible list whenever that list is non-empty, every visible
index points into the branch list, the visible list is never longer
than the branch list, the cursor stays within the branch list, and the
stash prompt is only ever shown with a non-empty visible list. -/
def SelectorInv (m : branchModel) : Prop :=
  0 ≤ m.selected ∧
  (m.filteredIdx ≠ [] → m.selected.toNat < m.filteredIdx.length) ∧
  (∀ i ∈ m.filteredIdx, i < m.branches.length) ∧
  m.filteredIdx.length ≤ m.branches.length ∧
  (m.branches = [] ∨ m.selected.toNat < m.branches.length) ∧
  (m.showStashPrompt = true → m.filteredIdx ≠ [])

/-- Contract of the external fuzzy library (`fuzzy.Find`): every match
index points into the name list, and there are no more matches than
names. -/
def FuzzyOk (env : SelectorEnv) : Prop :=
  ∀ q names, (∀ i ∈ env.fuzzyFind q names, i < names.length) ∧
    (env.fuzzyFind q names).length ≤ names.length

lemma getq_some_of_lt {α : Type _} :
    ∀ (l : List α) (n : Nat), n < l.length → ∃ a, l.get? n = some a
  | [], n, h => absurd h (by simp)
  | a :: _, 0, _ => ⟨a, rfl⟩
  | _ :: t, n + 1, h => getq_some_of_lt t n (by simpa using h)

lemma mem_of_getq {α : Type _} :
    ∀ (l : List α) (n : Nat) (a : α), l.get? n = some a → a ∈ l
  | [], _, _, h => by simp at h
  | b :: t, 0, a, h => by
      rw [show (b :: t).get? 0 = some b from rfl] at h
      injection h with h
      exact h ▸ List.mem_cons_self b t
  | b :: t, n + 1, a, h => List.mem_cons_of_mem b (mem_of_getq t n a h)

/-- Under the invariant, the double indexing on Enter (and on the stash
retry) is in bounds. -/
lemma selector_lookup (m : branchModel) (h : SelectorInv m)
    (hne : m.filteredIdx ≠ []) :
    ∃ bi b, m.filteredIdx.get? m.selected.toNat = some bi ∧
      m.branches.get? bi = some b := by
  obtain ⟨_, h2, h3, _, _, _⟩ := h
  obtain ⟨bi, hbi⟩ := getq_some_of_lt _ _ (h2 hne)
  obtain ⟨b, hb⟩ := getq_some_of_lt _ _ (h3 bi (mem_of_getq _ _ _ hbi))
  exact ⟨bi, b, hbi, hb⟩

lemma filter_inv (env : SelectorEnv) (henv : FuzzyOk env) (m : branchModel)
    (q : Str) (hm : SelectorInv m) (hsp : m.showStashPrompt = false) :
    SelectorInv (filterModel env m q) := by
  obtain ⟨h1, h2, h3, h4, h5, _⟩ := hm
  have henv1 := (henv q (m.branches.map Branch.name)).1
  have henv2 := (henv q (m.branches.map Branch.name)).2
  rw [List.length_map] at henv2
  unfold filterModel SelectorInv
  dsimp only
  split_ifs with hq hreset <;> dsimp only
  · refine ⟨h1, ?_, ?_, by simp, h5, by simp [hsp]⟩
    · intro hne
      simp only [List.length_range]
      rcases h5 with hb | hb
      · simp [hb] at hne
      · exact hb
    · intro i hi
      simpa using List.mem_range.mp hi
  · refine ⟨by omega, fun _ => by simpa using hreset.1, ?_, henv2, ?_, by simp [hsp]⟩
    · intro i hi
      have := henv1 i hi
      rwa [List.length_map] at this
    · right; simp only [Int.toNat_zero]; omega
  · refine ⟨h1, ?_, ?_, henv2, h5, by simp [hsp]⟩
    · intro hne
      have hpos : 0 < (env.fuzzyFind q (m.branches.map Branch.name)).length :=
        List.length_pos.mpr hne
      have hnle : ¬ ((env.fuzzyFind q (m.branches.map Branch.name)).length : Int)
          ≤ m.selected := fun hle => hreset ⟨hpos, hle⟩
      omega
    · intro i hi
      have := henv1 i hi
      rwa [List.length_map] at this

lemma selectorInv_fresh (bs : List Branch) (q0 : Str) (w h : Int)
    (sr dbg : Bool) :
    SelectorInv (branchModel.mk bs (List.range bs.length) 0 q0 w h sr dbg
      false Option.none) := by
  unfold SelectorInv
  dsimp only
  refine ⟨by omega, ?_, ?_, by simp, ?_, by simp⟩
  · intro hne
    simp only [List.length_range, Int.toNat_zero]
    have := List.length_pos.mpr hne
    simpa using this
  · intro i hi
    simpa using List.mem_range.mp hi
  · rcases Nat.eq_zero_or_pos bs.length with hz | hz
    · left; exact List.length_eq_zero.mp hz
    · right; simpa using hz

lemma create_inv (ms : List branchMatch) (dbg : Bool) (cur : Option Str) :
    SelectorInv (createFilteredBranchModel ms dbg cur) := by
  unfold createFilteredBranchModel
  dsimp only
  exact selectorInv_fresh _ _ _ _ _ _

lemma inv_set_prompt (m : branchModel) (hm : SelectorInv m)
    (sp2 : Option stashPromptModel) :
    SelectorInv { m with stashPrompt := sp2 } := by
  obtain ⟨h1, h2, h3, h4, h5, h6⟩ := hm
  exact ⟨h1, h2, h3, h4, h5, h6⟩

lemma inv_show_prompt (m : branchModel) (hm : SelectorInv m)
    (hne : m.filteredIdx ≠ []) :
    SelectorInv { m with showStashPrompt := true } := by
  obtain ⟨h1, h2, h3, h4, h5, _⟩ := hm
  exact ⟨h1, h2, h3, h4, h5, fun _ => hne⟩

lemma inv_set_selected (m : branchModel) (hm : SelectorInv m) (v : Int)
    (hv0 : 0 ≤ v)
    (hv1 : m.filteredIdx ≠ [] → v.toNat < m.filteredIdx.length)
    (hv2 : m.branches = [] ∨ v.toNat < m.branches.length) :
    SelectorInv { m with selected := v } := by
  obtain ⟨_, _, h3, h4, _, h6⟩ := hm
  exact ⟨hv0, hv1, h3, h4, hv2, h6⟩

lemma update_inv (env : SelectorEnv) (henv : FuzzyOk env) (m : branchModel)
    (msg : Msg) (hm : SelectorInv m) :
    ∃ m' eff, branchUpdate env m msg = some (m', eff) ∧ SelectorInv m' := by
  obtain ⟨h1, h2, h3, h4, h5, h6⟩ := hm
  have hm' : SelectorInv m := ⟨h1, h2, h3, h4, h5, h6⟩
  cases msg with
  | key s =>
    unfold branchUpdate
    by_cases hsp : m.showStashPrompt = true
    · rw [if_pos hsp]
      dsimp only
      obtain ⟨bi, b, hbi, hb⟩ := selector_lookup m hm' (h6 hsp)
      by_cases hsel :
          (stashUpdate (m.stashPrompt.getD createStashPromptModel) (Msg.key s)).1.selected = true
      · rw [if_pos hsel]
        by_cases hcur :
            ((stashUpdate (m.stashPrompt.getD createStashPromptModel) (Msg.key s)).1.cursor == 0) = true
        · rw [if_pos hcur]
          try dsimp only
          rw [hbi]
          try dsimp only
          rw [hb]
          exact ⟨_, _, rfl, inv_set_prompt m hm' _⟩
        · rw [if_neg hcur]
          exact ⟨_, _, rfl, inv_set_prompt m hm' _⟩
      · rw [if_neg hsel]
        exact ⟨_, _, rfl, inv_set_prompt m hm' _⟩
    · rw [if_neg hsp]
      have hspf : m.showStashPrompt = false := by
        cases hsh : m.showStashPrompt
        · rfl
        · exact absurd hsh hsp
      dsimp only
      by_cases hk1 : (s == keyCtrlC || s == keyQ) = true
      · rw [if_pos hk1]
        exact ⟨_, _, rfl, hm'⟩
      · rw [if_neg hk1]
        by_cases hk2 : (s == keyEnter) = true
        · rw [if_pos hk2]
          by_cases hlen : 0 < m.filteredIdx.length
          · rw [if_pos hlen]
            obtain ⟨bi, b, hbi, hb⟩ :=
              selector_lookup m hm' (List.length_pos.mp hlen)
            rw [hbi]
            dsimp only
            rw [hb]
            dsimp only
            cases hres : env.checkoutResult b with
            | success => exact ⟨_, _, rfl, hm'⟩
            | destructiveOverwrite =>
                exact ⟨_, _, rfl, inv_show_prompt m hm' (List.length_pos.mp hlen)⟩
            | otherError => exact ⟨_, _, rfl, hm'⟩
          · rw [if_neg hlen]
            exact ⟨_, _, rfl, hm'⟩
        · rw [if_neg hk2]
          by_cases hk3 : (s == keyUp || s == keyK) = true
          · rw [if_pos hk3]
            by_cases hup : 0 < m.selected
            · rw [if_pos hup]
              refine ⟨_, _, rfl, inv_set_selected m hm' _ (by omega) ?_ ?_⟩
              · intro hne
                have := h2 hne
                omega
              · rcases h5 with hbr | hbr
                · left; exact hbr
                · right; omega
            · rw [if_neg hup]
              exact ⟨_, _, rfl, hm'⟩
          · rw [if_neg hk3]
            by_cases hk4 : (s == keyDown || s == keyJ) = true
            · rw [if_pos hk4]
              by_cases hdown : m.selected < (m.filteredIdx.length : Int) - 1
              · rw [if_pos hdown]
                refine ⟨_, _, rfl, inv_set_selected m hm' _ (by omega) ?_ ?_⟩
                · intro _; omega
                · right; omega
              · rw [if_neg hdown]
                exact ⟨_, _, rfl, hm'⟩
            · rw [if_neg hk4]
              by_cases hk5 : (s == keyBackspace) = true
              · rw [if_pos hk5]
                by_cases hqlen : 0 < m.query.length
                · rw [if_pos hqlen]
                  exact ⟨_, _, rfl, filter_inv env henv m _ hm' hspf⟩
                · rw [if_neg hqlen]
                  exact ⟨_, _, rfl, hm'⟩
              · rw [if_neg hk5]
                by_cases hk6 : s.length = 1
                · rw [if_pos hk6]
                  exact ⟨_, _, rfl, filter_inv env henv m _ hm' hspf⟩
                · rw [if_neg hk6]
                  exact ⟨_, _, rfl, hm'⟩

/-- C10: under the fuzzy-library contract, the freshly created selector
model satisfies the cursor invariant; every input event maps an
invariant state to an invariant state without any out-of-bounds access
(the update never "panics"); and under the invariant the Enter lookup
on a non-empty visible list is in bounds at both indexing levels. -/
theorem C10_cursor_safety : ∀ env : SelectorEnv, FuzzyOk env →
    (∀ (ms : List branchMatch) (dbg : Bool) (cur : Option Str),
      SelectorInv (createFilteredBranchModel ms dbg cur)) ∧
    (∀ (m : branchModel) (msg : Msg), SelectorInv m →
      ∃ m' eff, branchUpdate env m msg = some (m', eff) ∧ SelectorInv m') ∧
    (∀ m : branchModel, SelectorInv m → m.filteredIdx ≠ [] →
      ∃ bi b, m.filteredIdx.get? m.selected.toNat = some bi ∧
        m.branches.get? bi = some b) := by
  intro env henv
  exact ⟨fun ms dbg cur => create_inv ms dbg cur,
    fun m msg hm => update_inv env henv m msg hm,
    fun m hm hne => selector_lookup m hm hne⟩

/-- A degenerate but contract-satisfying environment: the fuzzy engine
matches nothing and every checkout reports a destructive overwrite. -/
def stubEnv : SelectorEnv :=
  ⟨fun _ _ => [], fun _ => CheckoutResult.destructiveOverwrite⟩

lemma stubEnv_ok : FuzzyOk stubEnv :=
  fun _ _ => ⟨fun i hi => absurd hi (List.not_mem_nil i), Nat.zero_le _⟩

def wBranch : Branch := ⟨['m'], true, false⟩

def wModel : branchModel :=
  branchModel.mk [wBranch] [0] 0 [] 80 20 true false false Option.none

/-- C10, witness: a concrete one-branch model is invariant at creation
and after a Down keypress. -/
theorem C10_witness :
    SelectorInv (createFilteredBranchModel [⟨['m'], true, 1000⟩] false Option.none) ∧
    (∃ m' eff, branchUpdate stubEnv wModel (Msg.key keyDown) = some (m', eff) ∧
      SelectorInv m') :=
  ⟨(C10_cursor_safety stubEnv stubEnv_ok).1 [⟨['m'], true, 1000⟩] false Option.none,
   (C10_cursor_safety stubEnv stubEnv_ok).2.1 wModel (Msg.key keyDown)
     (by unfold SelectorInv wModel; decide)⟩

/-- C7: the claim's prompt-entry and abort legs hold — a checkout
attempt failing with the destructive-overwrite error class switches
the selector into the conflict prompt and surfaces no error effect,
and q or escape in the prompt forces the abort choice (cursor 1,
committed); while the prompt is shown no event changes the branch
list, the visible list or the cursor.  But the stash-retry leg exposes
a code bug: committing "stash and retry" emits an effect whose
executed commands are exactly `[stashPush]` — one stash and NO
checkout, because the checkout of the selected branch is only returned
as an inert message (see `Effect.stashThenCheckoutMsg`), contradicting
the claim's "reissues the identical checkout intent exactly once" and
the source's own comment "After stashing, try the checkout again". -/
theorem C7_stash_retry_bug :
    (∀ (env : SelectorEnv) (m : branchModel) (bi : Nat) (b : Branch),
      m.showStashPrompt = false →
      0 < m.filteredIdx.length →
      m.filteredIdx.get? m.selected.toNat = some bi →
      m.branches.get? bi = some b →
      env.checkoutResult b = CheckoutResult.destructiveOverwrite →
      branchUpdate env m (Msg.key keyEnter) =
        some ({ m with showStashPrompt := true }, Effect.none)) ∧
    (∀ (env : SelectorEnv) (m : branchModel) (sp : stashPromptModel)
      (bi : Nat) (b : Branch),
      m.showStashPrompt = true →
      m.stashPrompt = some sp →
      sp.cursor = 0 →
      m.filteredIdx.get? m.selected.toNat = some bi →
      m.branches.get? bi = some b →
      branchUpdate env m (Msg.key keyEnter) =
        some ({ m with stashPrompt := some { sp with selected := true } },
          Effect.stashThenCheckoutMsg b) ∧
      executedCommands (Effect.stashThenCheckoutMsg b) = [GitCmd.stashPush]) ∧
    (∀ sp : stashPromptModel,
      stashUpdate sp (Msg.key keyQ) =
        ({ sp with cursor := 1, selected := true }, Effect.quit) ∧
      stashUpdate sp (Msg.key keyEsc) =
        ({ sp with cursor := 1, selected := true }, Effect.quit)) ∧
    (∀ (env : SelectorEnv) (m : branchModel) (msg : Msg)
      (m' : branchModel) (eff : Effect),
      m.showStashPrompt = true →
      branchUpdate env m msg = some (m', eff) →
      m'.branches = m.branches ∧ m'.filteredIdx = m.filteredIdx ∧
        m'.selected = m.selected) := by
  refine ⟨?_, ?_, ?_, ?_⟩
  · intro env m bi b hsp hlen hbi hb hres
    unfold branchUpdate
    rw [if_neg (by simp [hsp])]
    dsimp only
    rw [if_neg (by decide : ¬ ((keyEnter == keyCtrlC || keyEnter == keyQ) = true))]
    rw [if_pos (by decide : (keyEnter == keyEnter) = true)]
    rw [if_pos hlen, hbi]
    dsimp only
    rw [hb]
    dsimp only
    rw [hres]
  · intro env m sp bi b hsp hspp hcur hbi hb
    refine ⟨?_, rfl⟩
    unfold branchUpdate
    rw [if_pos hsp]
    dsimp only
    rw [hspp]
    dsimp only [Option.getD]
    have hupd : stashUpdate sp (Msg.key keyEnter) =
        ({ sp with selected := true }, Effect.quit) := by
      unfold stashUpdate
      dsimp only
      rw [if_neg (by decide : ¬ ((keyEnter == keyUp || keyEnter == keyK) = true)),
        if_neg (by decide : ¬ ((keyEnter == keyDown || keyEnter == keyJ) = true)),
        if_pos (by decide : (keyEnter == keyEnter) = true)]
    rw [hupd]
    dsimp only
    rw [if_pos rfl]
    have hc2 : (({ sp with selected := true } : stashPromptModel).cursor == 0) = true := by
      dsimp only
      rw [hcur]
      decide
    rw [if_pos hc2, hbi]
    dsimp only
    rw [hb]
  · intro sp
    constructor
    · unfold stashUpdate
      dsimp only
      rw [if_neg (by decide : ¬ ((keyQ == keyUp || keyQ == keyK) = true)),
        if_neg (by decide : ¬ ((keyQ == keyDown || keyQ == keyJ) = true)),
        if_neg (by decide : ¬ ((keyQ == keyEnter) = true)),
        if_pos (by decide : (keyQ == keyQ || keyQ == keyEsc) = true)]
    · unfold stashUpdate
      dsimp only
      rw [if_neg (by decide : ¬ ((keyEsc == keyUp || keyEsc == keyK) = true)),
        if_neg (by decide : ¬ ((keyEsc == keyDown || keyEsc == keyJ) = true)),
        if_neg (by decide : ¬ ((keyEsc == keyEnter) = true)),
        if_pos (by decide : (keyEsc == keyQ || keyEsc == keyEsc) = true)]
  · intro env m msg m' eff hsp h
    unfold branchUpdate at h
    rw [if_pos hsp] at h
    dsimp only at h
    split at h
    · split at h
      · split at h
        · exact absurd h (by simp)
        · split at h
          · exact absurd h (by simp)
          · simp only [Option.some.injEq, Prod.mk.injEq] at h
            obtain ⟨hm2, _⟩ := h
            subst hm2
            exact ⟨rfl, rfl, rfl⟩
      · simp only [Option.some.injEq, Prod.mk.injEq] at h
        obtain ⟨hm2, _⟩ := h
        subst hm2
        exact ⟨rfl, rfl, rfl⟩
    · simp only [Option.some.injEq, Prod.mk.injEq] at h
      obtain ⟨hm2, _⟩ := h
      subst hm2
      exact ⟨rfl, rfl, rfl⟩

def wPrompt : stashPromptModel := ⟨[], 0, false⟩

def wModelPrompt : branchModel :=
  branchModel.mk [wBranch] [0] 0 [] 80 20 true false true (some wPrompt)

/-- C7, witness: the conflict flow at a concrete one-branch model; the
stash-retry commit executes one stash and no checkout. -/
theorem C7_bug_witness :
    branchUpdate stubEnv wModel (Msg.key keyEnter) =
      some ({ wModel with showStashPrompt := true }, Effect.none) ∧
    (branchUpdate stubEnv wModelPrompt (Msg.key keyEnter) =
      some ({ wModelPrompt with stashPrompt := some { wPrompt with selected := true } },
        Effect.stashThenCheckoutMsg wBranch) ∧
      executedCommands (Effect.stashThenCheckoutMsg wBranch) = [GitCmd.stashPush]) ∧
    stashUpdate wPrompt (Msg.key keyEsc) =
      ({ wPrompt with cursor := 1, selected := true }, Effect.quit) :=
  ⟨C7_stash_retry_bug.1 stubEnv wModel 0 wBranch rfl (by decide) rfl rfl rfl,
   C7_stash_retry_bug.2.1 stubEnv wModelPrompt wPrompt 0 wBranch rfl rfl rfl rfl rfl,
   (C7_stash_retry_bug.2.2.1 wPrompt).2⟩
